import Mathlib

/-!
Shallow embedding of `src/pysar/generate_kmz_timeseries.py` (PySAR/MintPy
KMZ time-series exporter) and verification of its specification claims.

Scalars are modelled as rationals (`ℚ`); numpy arrays as (nested) lists in
row-major order; missing values (NaN) in the velocity raster as `Option ℚ`
with `none` for NaN; fallible steps of `main` as an artifact trace paired
with an optional error.
-/

namespace KmzTs

/-- Raster metadata: the `Y_FIRST/X_FIRST/Y_STEP/X_STEP/LENGTH/WIDTH`
entries of the `meta` dict consumed by `get_lat_lon`. -/
structure RasterMetadata where
  y_first : ℚ
  x_first : ℚ
  y_step : ℚ
  x_step : ℚ
  length : ℕ
  width : ℕ
deriving DecidableEq

/-- Embedding of `numpy.linspace a b n` (equivalently one axis of
`np.mgrid[a:b:n*1j]`): `n` evenly spaced samples from `a` to `b`,
both endpoints included when `n ≥ 2`, `[a]` when `n = 1`, `[]` when `n = 0`. -/
def linspace (a b : ℚ) (n : ℕ) : List ℚ :=
  if n ≤ 1 then (List.range n).map (fun _ => a)
  else (List.range n).map (fun i : ℕ => a + (b - a) * (i : ℚ) / ((n - 1 : ℕ) : ℚ))

/-- Embedding of `get_lat_lon` (source lines 41-58): builds the latitude and
longitude grids via `np.mgrid[lat0:lat1:lat_num*1j, lon0:lon1:lon_num*1j]`
with `lat1 = lat0 + lat_step*lat_num` and `lon1 = lon0 + lon_step*lon_num`. -/
def get_lat_lon (meta : RasterMetadata) : List (List ℚ) × List (List ℚ) :=
  let lat_num := meta.length
  let lon_num := meta.width
  let lat0 := meta.y_first
  let lon0 := meta.x_first
  let lat1 := lat0 + meta.y_step * lat_num
  let lon1 := lon0 + meta.x_step * lon_num
  let latAxis := linspace lat0 lat1 lat_num
  let lonAxis := linspace lon0 lon1 lon_num
  (latAxis.map (fun v => (List.range lon_num).map (fun _ => v)),
   (List.range lat_num).map (fun _ => lonAxis))

/-- Embedding of `mpl.colors.Normalize(vmin, vmax)` applied to a value
(source line 120 / 158): affine rescaling, unclamped (`clip=False`). -/
def normalize (vmin vmax v : ℚ) : ℚ := (v - vmin) / (vmax - vmin)

/-- Embedding of `np.round` on a scalar: round half to even. -/
def roundHalfEven (x : ℚ) : ℤ :=
  let f := ⌊x⌋
  let frac := x - (f : ℚ)
  if frac < 1/2 then f
  else if 1/2 < frac then f + 1
  else if f % 2 = 0 then f else f + 1

/-- Lowercase hexadecimal digits, as indexed by `format(.., "02x")`. -/
def hexDigits : List Char := "0123456789abcdef".data

/-- The `n`-th lowercase hexadecimal digit (`n < 16`). -/
def hexDigit (n : ℕ) : Char := hexDigits.getD n '0'

/-- Two-digit lowercase hexadecimal rendering of `n` (faithful to
`format(n, "02x")` for `n < 256`, the range produced by the encoder). -/
def hex2 (n : ℕ) : String := String.mk [hexDigit (n / 16), hexDigit (n % 16)]

/-- Quantization of one color channel inside `mpl.colors.to_hex`:
`int(np.round(val * 255))`, taken as a natural number for channels in [0,1]. -/
def quantChannel (v : ℚ) : ℕ := (roundHalfEven (v * 255)).toNat

/-- Embedding of `mpl.colors.to_hex(c, keep_alpha=True)`: a hash sign
followed by the two-hex-digit quantization of each listed component. -/
def to_hex (c : List ℚ) : String :=
  "#" ++ String.join (c.map (fun v => hex2 (quantChannel v)))

/-- An rgba quadruple as returned by a matplotlib colormap lookup. -/
structure Rgba where
  r : ℚ
  g : ℚ
  b : ℚ
  a : ℚ
deriving DecidableEq

/-- Embedding of Python string slicing `s[1:]` (character based). -/
def strTail1 (s : String) : String := String.mk (s.data.drop 1)

/-- Embedding of source lines 159-161: the KML color string
`mpl.colors.to_hex([rgba[3], rgba[2], rgba[1], rgba[0]], keep_alpha=True)[1:]`. -/
def kmlHex (c : Rgba) : String := strTail1 (to_hex [c.a, c.b, c.g, c.r])

/-- Bool test that a character is a lowercase hexadecimal digit. -/
def isLowerHex (c : Char) : Bool := hexDigits.contains c

/-! ### The `main` pipeline -/

/-- Inputs of one run of `main`, as delivered by the external collaborators
(`timeseries.open`, `readfile.read`, `plot.auto_figure_title`, CLI parsing):
the already-formatted date strings, the raw velocity raster with `none`
marking NaN cells, the raw per-date time-series rasters, the grid metadata,
and the optional `--vlim` / `--colormap` options. -/
structure Inputs where
  dates : List String
  velRaw : List (List (Option ℚ))
  tsRaw : List (List (List ℚ))
  meta : RasterMetadata
  vlim : Option (ℚ × ℚ)
  colormap : Option String
  outBase : String
deriving DecidableEq

/-- Embedding of numpy boolean-mask indexing `arr[mask]` on flattened
row-major data: keep the entries whose mask bit is true, in order. -/
def applyMask (m : List Bool) (xs : List α) : List α :=
  ((xs.zip m).filter (fun p => p.2)).map (fun p => p.1)

/-- Source line 89: `mask = ~np.isnan(vel)`, flattened row-major. -/
def flatMask (inp : Inputs) : List Bool :=
  inp.velRaw.flatten.map Option.isSome

/-- The masked velocity values before scaling: `readfile.read(vel_file)[0][mask]`. -/
def rawMaskedVel (inp : Inputs) : List ℚ :=
  applyMask (flatMask inp) (inp.velRaw.flatten.map (fun o => o.getD 0))

/-- Source line 90: `vel = readfile.read(vel_file)[0][mask]*100`. -/
def maskedVel (inp : Inputs) : List ℚ :=
  (rawMaskedVel inp).map (fun x => x * 100)

/-- The masked time-series before scaling: `readfile.read(ts_file)[0][:, mask]`. -/
def rawMaskedTs (inp : Inputs) : List (List ℚ) :=
  inp.tsRaw.map (fun sl => applyMask (flatMask inp) sl.flatten)

/-- Source line 91: `ts = readfile.read(ts_file)[0][:, mask]*100`. -/
def maskedTs (inp : Inputs) : List (List ℚ) :=
  (rawMaskedTs inp).map (fun sl => sl.map (fun x => x * 100))

/-- Embedding of `np.min` over a flattened array: `none` on an empty array,
where numpy raises "zero-size array to reduction operation". -/
def npMin : List ℚ → Option ℚ
  | [] => none
  | x :: xs => some (xs.foldl min x)

/-- Embedding of `np.max`; `none` on an empty array. -/
def npMax : List ℚ → Option ℚ
  | [] => none
  | x :: xs => some (xs.foldl max x)

/-- Source line 93: `ts_min = np.min(ts)`. -/
def tsMinOf (inp : Inputs) : Option ℚ := npMin (maskedTs inp).flatten

/-- Source line 94: `ts_max = np.max(ts)`. -/
def tsMaxOf (inp : Inputs) : Option ℚ := npMax (maskedTs inp).flatten

/-- Source lines 98-103: colormap bounds, `inps.vlim` if given, else
`(min(vel), max(vel))`; `none` when that reduction is over an empty array. -/
def velBounds (inp : Inputs) : Option (ℚ × ℚ) :=
  match inp.vlim with
  | some p => some p
  | none =>
    match npMin (maskedVel inp), npMax (maskedVel inp) with
    | some a, some b => some (a, b)
    | _, _ => none

/-- Source lines 105-108: the colormap name, defaulting to jet. -/
def cmapName (inp : Inputs) : String := inp.colormap.getD "jet"

/-- Source line 112: `lats = get_lat_lon(ts_obj.metadata)[0][mask]`. -/
def maskedLats (inp : Inputs) : List ℚ :=
  applyMask (flatMask inp) (get_lat_lon inp.meta).1.flatten

/-- Source line 113: `lons = get_lat_lon(ts_obj.metadata)[1][mask]`. -/
def maskedLons (inp : Inputs) : List ℚ :=
  applyMask (flatMask inp) (get_lat_lon inp.meta).2.flatten

/-- Source line 114: `coords = list(zip(lats, lons))`. -/
def coordsOf (inp : Inputs) : List (ℚ × ℚ) :=
  (maskedLats inp).zip (maskedLons inp)

/-- The registry of named colormaps known to matplotlib, consulted when the
colorbar is built and by `mpl.cm.get_cmap`; an unknown name raises there.
Modelled as a closed finite set of names containing those advertised by the
CLI help text. -/
def knownColormaps : List String :=
  ["jet", "jet_r", "RdBu", "RdBu_r", "hsv", "viridis", "plasma", "inferno",
   "magma", "cividis", "gray", "bwr", "coolwarm", "seismic"]

/-- Textual rendering of a scalar at the serialization boundary, standing
for Python `str` of the value; the claims rely only on its placement. -/
def pyStr (q : ℚ) : String :=
  if q.den = 1 then toString q.num else toString q.num ++ "/" ++ toString q.den

/-- One placemark entity as assembled in the loop body (source lines
152-210): icon color, the point's coordinate string, the chart rows of the
description payload, and the embedded shared value range. -/
structure Placemark where
  colorHex : String
  coordStr : String
  rows : List (String × ℚ)
  valueRange : ℚ × ℚ
deriving DecidableEq

/-- Embedding of Python `range(0, stop, step)` for positive `step`: the
multiples of `step` below `stop`, in increasing order. -/
def rangeStep (stop step : ℕ) : List ℕ :=
  (List.range stop).filter (fun i => i % step == 0)

/-- The loop body of source lines 152-210 at index `i`: pick the pixel's
(lat, lon) and velocity, look up its color through the normalizer and the
named colormap `cfun`, encode it for KML, and lay out the description rows
with one (date, displacement) pair per date plus the shared value range. -/
def buildPlacemark (cfun : String → ℚ → Rgba) (cmap : String) (vmin vmax : ℚ)
    (dates : List String) (ts : List (List ℚ)) (tsmin tsmax : ℚ)
    (coords : List (ℚ × ℚ)) (vel : List ℚ) (i : ℕ) : Placemark :=
  let lat := (coords.getD i (0, 0)).1
  let lon := (coords.getD i (0, 0)).2
  let v := vel.getD i 0
  let rgba := cfun cmap (normalize vmin vmax v)
  { colorHex := kmlHex rgba
    coordStr := pyStr lon ++ "," ++ pyStr lat
    rows := (List.range dates.length).map
      (fun j => (dates.getD j "", (ts.getD j []).getD i 0))
    valueRange := (tsmin, tsmax) }

/-- The placemark loop `for i in range(0, len(coords), stride)` (the source
fixes `stride = 10` at line 152). -/
def buildPlacemarks (cfun : String → ℚ → Rgba) (cmap : String) (vmin vmax : ℚ)
    (dates : List String) (ts : List (List ℚ)) (tsmin tsmax : ℚ)
    (coords : List (ℚ × ℚ)) (vel : List ℚ) (stride : ℕ) : List Placemark :=
  (rangeStep coords.length stride).map
    (buildPlacemark cfun cmap vmin vmax dates ts tsmin tsmax coords vel)

/-- A node of the KML document: the colorbar screen overlay (holding its
image href) or one placemark. -/
inductive KmlNode where
  | screenOverlay (href : String)
  | placemarkNode (p : Placemark)
deriving DecidableEq

/-- The placemark nodes of a document, in order. -/
def docPlacemarks (nodes : List KmlNode) : List Placemark :=
  nodes.filterMap (fun n =>
    match n with
    | KmlNode.placemarkNode p => some p
    | _ => none)

/-- Error taxonomy of a run: `emptyData` for a reduction over an empty
masked array (numpy ValueError at `np.min`), `invalidConfiguration` for an
unknown colormap name (ValueError in the matplotlib registry lookup). -/
inductive KmzError where
  | emptyData
  | invalidConfiguration
deriving DecidableEq

/-- Artifacts produced by a run, in production order: the colorbar image,
the assembled KML document, the final KMZ archive. -/
inductive Artifact where
  | cbarPng
  | kmlDocument (nodes : List KmlNode)
  | kmzArchive
deriving DecidableEq

/-- The document built in the success path: the legend screen overlay
appended first (source line 148), then every placemark in loop order. -/
def runNodes (cfun : String → ℚ → Rgba) (inp : Inputs)
    (vmin vmax tsmin tsmax : ℚ) : List KmlNode :=
  KmlNode.screenOverlay (inp.outBase ++ "_cbar.png") ::
    (buildPlacemarks cfun (cmapName inp) vmin vmax inp.dates (maskedTs inp)
      tsmin tsmax (coordsOf inp) (maskedVel inp) 10).map KmlNode.placemarkNode

/-- Embedding of `main` as an artifact trace: reductions over the masked
time-series come first (lines 93-94), then the colormap bounds (98-103),
then the colorbar construction, which resolves the colormap name in the
registry before the image is saved (121 before 127), then the document and
the archive. On error the run aborts with nothing produced. -/
def runMain (cfun : String → ℚ → Rgba) (inp : Inputs) :
    List Artifact × Option KmzError :=
  match tsMinOf inp, tsMaxOf inp with
  | some tsmin, some tsmax =>
    match velBounds inp with
    | none => ([], some KmzError.emptyData)
    | some (vmin, vmax) =>
      if cmapName inp ∈ knownColormaps then
        ([Artifact.cbarPng,
          Artifact.kmlDocument (runNodes cfun inp vmin vmax tsmin tsmax),
          Artifact.kmzArchive], none)
      else ([], some KmzError.invalidConfiguration)
  | _, _ => ([], some KmzError.emptyData)

/-! ### Concrete instances used by witnesses and scenario evaluations -/

/-- A colormap lookup function fixed for concrete runs (the claims never
depend on the actual color table of a named scale). -/
def cf0 : String → ℚ → Rgba := fun _ _ => ⟨0, 0, 0, 0⟩

/-- A minimal 1×1 single-date run with one valid pixel. -/
def inp0 : Inputs :=
  { dates := ["2020-01-01"]
    velRaw := [[some 1]]
    tsRaw := [[[2]]]
    meta := { y_first := 0, x_first := 0, y_step := 1, x_step := 1, length := 1, width := 1 }
    vlim := none
    colormap := none
    outBase := "t" }

/-- The 3×3 metadata of the spec's concrete scenario: origin (10, 20),
latitude step −1, longitude step 1. -/
def c2meta : RasterMetadata :=
  { y_first := 10, x_first := 20, y_step := -1, x_step := 1, length := 3, width := 3 }

/-- The full 3×3 scenario input: velocity valid everywhere except the
center cell, one date. -/
def c2inp : Inputs :=
  { dates := ["2020-01-01"]
    velRaw := [[some 1, some 1, some 1], [some 1, none, some 1], [some 1, some 1, some 1]]
    tsRaw := [[[1, 2, 3], [4, 5, 6], [7, 8, 9]]]
    meta := c2meta
    vlim := some (0, 1)
    colormap := none
    outBase := "t" }

/-! ### Helper lemmas -/

theorem getD_range_map {α : Type} (f : ℕ → α) (n r : ℕ) (d : α) (h : r < n) :
    ((List.range n).map f).getD r d = f r := by
  simp [List.getD_eq_getElem?_getD, List.getElem?_map, List.getElem?_range h]

theorem linspace_length (a b : ℚ) (n : ℕ) : (linspace a b n).length = n := by
  unfold linspace
  split <;> simp

theorem lat_entry (meta : RasterMetadata) (hH : 1 < meta.length) (r c : ℕ)
    (hr : r < meta.length) (hc : c < meta.width) :
    (((get_lat_lon meta).1.getD r []).getD c 0 : ℚ) =
      meta.y_first + (meta.y_first + meta.y_step * meta.length - meta.y_first) * r /
        ((meta.length : ℚ) - 1) := by
  unfold get_lat_lon linspace
  simp only [if_neg (by omega : ¬ meta.length ≤ 1), List.map_map]
  rw [getD_range_map _ _ _ _ hr, Function.comp_apply,
    getD_range_map _ _ _ _ hc]
  rw [Nat.cast_sub (by omega), Nat.cast_one]

theorem lon_entry (meta : RasterMetadata) (hW : 1 < meta.width) (r c : ℕ)
    (hr : r < meta.length) (hc : c < meta.width) :
    (((get_lat_lon meta).2.getD r []).getD c 0 : ℚ) =
      meta.x_first + (meta.x_first + meta.x_step * meta.width - meta.x_first) * c /
        ((meta.width : ℚ) - 1) := by
  unfold get_lat_lon linspace
  simp only [if_neg (by omega : ¬ meta.width ≤ 1)]
  rw [getD_range_map _ _ _ _ hr, getD_range_map _ _ _ _ hc]
  rw [Nat.cast_sub (by omega), Nat.cast_one]

/-! ### Claims -/

/-- C1: for metadata with height H > 1 and width W > 1, `get_lat_lon`
returns two grids of shape (H, W) with
`latGrid[r][c] = lat0 + (lat1-lat0)*r/(H-1)` and
`lonGrid[r][c] = lon0 + (lon1-lon0)*c/(W-1)` where
`lat1 = lat0 + latStep*H`, `lon1 = lon0 + lonStep*W`; the corner cell (0,0)
is (lat0, lon0) and the opposite corner (H-1, W-1) is
(lat0 + latStep*H, lon0 + lonStep*W). -/
theorem grid_reconstruct_spec (meta : RasterMetadata)
    (hH : 1 < meta.length) (hW : 1 < meta.width) :
    (get_lat_lon meta).1.length = meta.length ∧
    (∀ row ∈ (get_lat_lon meta).1, row.length = meta.width) ∧
    (get_lat_lon meta).2.length = meta.length ∧
    (∀ row ∈ (get_lat_lon meta).2, row.length = meta.width) ∧
    (∀ r c, r < meta.length → c < meta.width →
      (((get_lat_lon meta).1.getD r []).getD c 0 =
          meta.y_first +
            (meta.y_first + meta.y_step * meta.length - meta.y_first) * r /
              ((meta.length : ℚ) - 1) ∧
        ((get_lat_lon meta).2.getD r []).getD c 0 =
          meta.x_first +
            (meta.x_first + meta.x_step * meta.width - meta.x_first) * c /
              ((meta.width : ℚ) - 1))) ∧
    ((get_lat_lon meta).1.getD 0 []).getD 0 0 = meta.y_first ∧
    ((get_lat_lon meta).2.getD 0 []).getD 0 0 = meta.x_first ∧
    ((get_lat_lon meta).1.getD (meta.length - 1) []).getD (meta.width - 1) 0 =
      meta.y_first + meta.y_step * meta.length ∧
    ((get_lat_lon meta).2.getD (meta.length - 1) []).getD (meta.width - 1) 0 =
      meta.x_first + meta.x_step * meta.width := by
  have hHq : (1 : ℚ) < (meta.length : ℚ) := by exact_mod_cast hH
  have hWq : (1 : ℚ) < (meta.width : ℚ) := by exact_mod_cast hW
  have hHne : (meta.length : ℚ) - 1 ≠ 0 := by linarith
  have hWne : (meta.width : ℚ) - 1 ≠ 0 := by linarith
  refine ⟨?_, ?_, ?_, ?_, ?_, ?_, ?_, ?_, ?_⟩
  · unfold get_lat_lon
    simp [linspace_length]
  · unfold get_lat_lon
    intro row hrow
    simp only [List.mem_map] at hrow
    obtain ⟨v, _, hv⟩ := hrow
    simp [← hv]
  · unfold get_lat_lon
    simp
  · unfold get_lat_lon
    intro row hrow
    simp only [List.mem_map] at hrow
    obtain ⟨v, _, hv⟩ := hrow
    simp [← hv, linspace_length]
  · intro r c hr hc
    exact ⟨lat_entry meta hH r c hr hc, lon_entry meta hW r c hr hc⟩
  · rw [lat_entry meta hH 0 0 (by omega) (by omega)]
    norm_num
  · rw [lon_entry meta hW 0 0 (by omega) (by omega)]
    norm_num
  · rw [lat_entry meta hH (meta.length - 1) (meta.width - 1) (by omega) (by omega)]
    rw [Nat.cast_sub (by omega : 1 ≤ meta.length), Nat.cast_one]
    field_simp
  · rw [lon_entry meta hW (meta.length - 1) (meta.width - 1) (by omega) (by omega)]
    rw [Nat.cast_sub (by omega : 1 ≤ meta.width), Nat.cast_one]
    field_simp

/-- C1 witness: the theorem applied at the concrete 3×3 metadata. -/
theorem grid_reconstruct_spec_witness :
    (1 < c2meta.length ∧ 1 < c2meta.width) ∧
    ((get_lat_lon c2meta).1.getD 0 []).getD 0 0 = c2meta.y_first ∧
    ((get_lat_lon c2meta).1.getD (c2meta.length - 1) []).getD (c2meta.width - 1) 0 =
      c2meta.y_first + c2meta.y_step * c2meta.length :=
  ⟨⟨by norm_num [c2meta], by norm_num [c2meta]⟩,
    (grid_reconstruct_spec c2meta (by norm_num [c2meta]) (by norm_num [c2meta])).2.2.2.2.2.1,
    (grid_reconstruct_spec c2meta (by norm_num [c2meta]) (by norm_num [c2meta])).2.2.2.2.2.2.2.1⟩

/-- C2: evaluation of the code at the spec's concrete 3×3 scenario
(origin (10, 20), latStep −1, lonStep 1, stride 1, center cell invalid).
The code's latitude rows are [10,10,10], [8.5,8.5,8.5], [7,7,7] and its
longitude columns are [20, 21.5, 23] — not the claimed [10,9,8] rows and
[20,21,22] columns — while the placemark count at stride 1 is 8 as claimed. -/
theorem c2_scenario_code_eval :
    (get_lat_lon c2meta).1 = [[10, 10, 10], [17/2, 17/2, 17/2], [7, 7, 7]] ∧
    (get_lat_lon c2meta).2 = [[20, 43/2, 23], [20, 43/2, 23], [20, 43/2, 23]] ∧
    ¬ ((get_lat_lon c2meta).1 = [[10, 10, 10], [9, 9, 9], [8, 8, 8]] ∧
       (get_lat_lon c2meta).2 = [[20, 21, 22], [20, 21, 22], [20, 21, 22]]) ∧
    (coordsOf c2inp).length = 8 ∧
    (buildPlacemarks cf0 "jet" 0 1 c2inp.dates (maskedTs c2inp) 0 1
        (coordsOf c2inp) (maskedVel c2inp) 1).length = 8 := by
  have h1 : (get_lat_lon c2meta).1 = [[10, 10, 10], [17/2, 17/2, 17/2], [7, 7, 7]] := by
    norm_num [get_lat_lon, linspace, c2meta, List.range_succ]
  have h2 : (get_lat_lon c2meta).2 = [[20, 43/2, 23], [20, 43/2, 23], [20, 43/2, 23]] := by
    norm_num [get_lat_lon, linspace, c2meta, List.range_succ]
  refine ⟨h1, h2, ?_, ?_, ?_⟩
  · rintro ⟨hbad, -⟩
    rw [h1] at hbad
    norm_num at hbad
  · norm_num [coordsOf, maskedLats, maskedLons, flatMask, applyMask, c2inp, h1, h2,
      List.range_succ]
  · norm_num [buildPlacemarks, rangeStep, coordsOf, maskedLats, maskedLons, flatMask,
      applyMask, c2inp, h1, h2, List.range_succ]

theorem roundHalfEven_nonneg (x : ℚ) (hx : 0 ≤ x) : 0 ≤ roundHalfEven x := by
  have h : (0 : ℤ) ≤ ⌊x⌋ := Int.floor_nonneg.2 hx
  unfold roundHalfEven
  dsimp only
  split_ifs <;> omega

theorem roundHalfEven_le255 (x : ℚ) (hx : x ≤ 255) : roundHalfEven x ≤ 255 := by
  have hf : ⌊x⌋ ≤ 255 := by
    have h := Int.floor_le_floor hx
    simpa using h
  have haux : 1/2 ≤ x - (⌊x⌋ : ℚ) → ⌊x⌋ + 1 ≤ 255 := by
    intro h
    have h254 : ⌊x⌋ ≤ 254 := by
      by_contra hc
      push_neg at hc
      have hq : (255 : ℚ) ≤ (⌊x⌋ : ℚ) := by exact_mod_cast hc
      linarith
    omega
  unfold roundHalfEven
  dsimp only
  split_ifs with h1 h2 h3
  · omega
  · exact haux (le_of_lt h2)
  · omega
  · exact haux (by linarith)

theorem quantChannel_le255 (v : ℚ) (h0 : 0 ≤ v) (h1 : v ≤ 1) :
    quantChannel v ≤ 255 := by
  unfold quantChannel
  have ha : 0 ≤ v * 255 := by positivity
  have hb : v * 255 ≤ 255 := by nlinarith
  have hc := roundHalfEven_le255 _ hb
  have hd := roundHalfEven_nonneg _ ha
  omega

theorem isLowerHex_hexDigit (n : ℕ) : isLowerHex (hexDigit n) = true := by
  unfold hexDigit
  rcases lt_or_ge n 16 with h | h
  · interval_cases n <;> decide
  · have hlen : hexDigits.length ≤ n := by
      simpa [hexDigits] using h
    simp [List.getD_eq_getElem?_getD, List.getElem?_eq_none hlen]
    decide

theorem hex2_data (n : ℕ) : (hex2 n).data = [hexDigit (n / 16), hexDigit (n % 16)] := rfl

theorem kmlHex_data (c : Rgba) :
    (kmlHex c).data =
      (hex2 (quantChannel c.a)).data ++ (hex2 (quantChannel c.b)).data ++
        (hex2 (quantChannel c.g)).data ++ (hex2 (quantChannel c.r)).data := by
  simp [kmlHex, strTail1, to_hex, String.join, String.data_append, hex2]

/-- C3: for any color with all four components in [0,1], the KML color
encoding yields exactly 8 lowercase hexadecimal characters, no separator,
in channel order alpha, blue, green, red — the first two characters encode
the alpha channel and the last two the red channel — with each channel
quantized into [0,255] by rounding. -/
theorem color_encode_spec (c : Rgba)
    (hr0 : 0 ≤ c.r) (hr1 : c.r ≤ 1) (hg0 : 0 ≤ c.g) (hg1 : c.g ≤ 1)
    (hb0 : 0 ≤ c.b) (hb1 : c.b ≤ 1) (ha0 : 0 ≤ c.a) (ha1 : c.a ≤ 1) :
    (kmlHex c).length = 8 ∧
    (∀ ch ∈ (kmlHex c).data, isLowerHex ch = true) ∧
    (kmlHex c).data =
      (hex2 (quantChannel c.a)).data ++ (hex2 (quantChannel c.b)).data ++
        (hex2 (quantChannel c.g)).data ++ (hex2 (quantChannel c.r)).data ∧
    (kmlHex c).data.take 2 = (hex2 (quantChannel c.a)).data ∧
    (kmlHex c).data.drop 6 = (hex2 (quantChannel c.r)).data ∧
    quantChannel c.a ≤ 255 ∧ quantChannel c.b ≤ 255 ∧
    quantChannel c.g ≤ 255 ∧ quantChannel c.r ≤ 255 := by
  have hdata := kmlHex_data c
  refine ⟨?_, ?_, hdata, ?_, ?_, quantChannel_le255 _ ha0 ha1,
    quantChannel_le255 _ hb0 hb1, quantChannel_le255 _ hg0 hg1,
    quantChannel_le255 _ hr0 hr1⟩
  · have hlen : (kmlHex c).length = (kmlHex c).data.length := rfl
    rw [hlen, hdata]
    simp [hex2_data]
  · intro ch hch
    rw [hdata] at hch
    simp only [hex2_data, List.mem_append, List.mem_cons,
      List.not_mem_nil, or_false, or_assoc] at hch
    rcases hch with h | h | h | h | h | h | h | h <;>
      (subst h; exact isLowerHex_hexDigit _)
  · rw [hdata]
    simp [hex2_data]
  · rw [hdata]
    simp [hex2_data]

/-- C3 witness: the theorem applied at the opaque black color (0,0,0,1). -/
theorem color_encode_spec_witness :
    ((0 : ℚ) ≤ 0 ∧ (0 : ℚ) ≤ 1 ∧ (1 : ℚ) ≤ 1) ∧
    (kmlHex ⟨0, 0, 0, 1⟩).length = 8 :=
  ⟨⟨le_refl 0, by norm_num, le_refl 1⟩,
    (color_encode_spec ⟨0, 0, 0, 1⟩ (by norm_num) (by norm_num) (by norm_num)
      (by norm_num) (by norm_num) (by norm_num) (by norm_num) (by norm_num)).1⟩

/-- C4: for every configured pair (vmin, vmax) with vmin ≠ vmax, the color
normalization is (v − vmin)/(vmax − vmin), unclamped: the endpoints map to
0 and 1, the map is affine with nonzero slope, strictly monotone
(increasing when vmin < vmax, decreasing when vmax < vmin), and when
vmin < vmax any v outside [vmin, vmax] maps outside [0, 1]. -/
theorem normalize_spec (vmin vmax : ℚ) (h : vmin ≠ vmax) :
    normalize vmin vmax vmin = 0 ∧
    normalize vmin vmax vmax = 1 ∧
    (∃ a b : ℚ, a ≠ 0 ∧ ∀ v, normalize vmin vmax v = a * v + b) ∧
    (vmin < vmax → StrictMono (normalize vmin vmax)) ∧
    (vmax < vmin → StrictAnti (normalize vmin vmax)) ∧
    (vmin < vmax → ∀ v, (v < vmin → normalize vmin vmax v < 0) ∧
      (vmax < v → 1 < normalize vmin vmax v)) := by
  have hne : vmax - vmin ≠ 0 := sub_ne_zero.2 (Ne.symm h)
  refine ⟨by simp [normalize], ?_, ⟨1 / (vmax - vmin), -vmin / (vmax - vmin), ?_, ?_⟩,
    ?_, ?_, ?_⟩
  · simp [normalize, div_self hne]
  · exact one_div_ne_zero hne
  · intro v
    unfold normalize
    field_simp
    ring
  · intro hlt x y hxy
    have hpos : 0 < vmax - vmin := sub_pos.2 hlt
    unfold normalize
    exact (div_lt_div_iff_of_pos_right hpos).2 (by linarith)
  · intro hlt x y hxy
    have hneg : vmax - vmin < 0 := sub_neg.2 hlt
    unfold normalize
    exact (div_lt_div_right_of_neg hneg).2 (by linarith)
  · intro hlt v
    have hpos : 0 < vmax - vmin := sub_pos.2 hlt
    constructor
    · intro hv
      exact div_neg_of_neg_of_pos (by linarith) hpos
    · intro hv
      exact (one_lt_div hpos).2 (by linarith)

/-- C4 witness: the theorem applied at (vmin, vmax) = (0, 10). -/
theorem normalize_spec_witness :
    ((0 : ℚ) ≠ 10) ∧ normalize 0 10 0 = 0 ∧ normalize 0 10 10 = 1 :=
  ⟨by norm_num, (normalize_spec 0 10 (by norm_num)).1,
    (normalize_spec 0 10 (by norm_num)).2.1⟩

theorem rangeStep_eq_map (n s : ℕ) (hs : 0 < s) :
    rangeStep n s = (List.range ((n + s - 1) / s)).map (fun k => k * s) := by
  induction n with
  | zero =>
    simp [rangeStep, Nat.div_eq_of_lt (show s - 1 < s by omega)]
  | succ n ih =>
    have hstep : rangeStep (n + 1) s =
        rangeStep n s ++ (if (n % s == 0) = true then [n] else []) := by
      unfold rangeStep
      rw [List.range_succ, List.filter_append]
      simp [List.filter_cons]
    rw [hstep, ih]
    by_cases hd : s ∣ n
    · obtain ⟨m, hm⟩ := hd
      have hmod : (n % s == 0) = true := by
        simp [hm, Nat.mul_mod_right]
      have hq : (n + s - 1) / s = m := by
        rw [hm, show s * m + s - 1 = s * m + (s - 1) from by omega,
          Nat.mul_add_div hs, Nat.div_eq_of_lt (by omega)]
        omega
      have hq2 : (n + 1 + s - 1) / s = m + 1 := by
        rw [show n + 1 + s - 1 = n + s from by omega, hm, ← Nat.mul_succ,
          Nat.mul_div_cancel_left _ hs]
      rw [hq, hq2, if_pos hmod, List.range_succ, List.map_append]
      simp [hm, Nat.mul_comm]
    · have hmod : (n % s == 0) = false := by
        simpa [Nat.dvd_iff_mod_eq_zero] using hd
      have hq2 : (n + 1 + s - 1) / s = (n + s - 1) / s := by
        rw [show n + 1 + s - 1 = (n + s - 1) + 1 from by omega,
          Nat.succ_div_of_not_dvd]
        intro hcon
        rw [show (n + s - 1) + 1 = s + n from by omega] at hcon
        exact hd ((Nat.dvd_add_right (dvd_refl s)).mp hcon)
      rw [hq2, if_neg (by simp [hmod])]
      simp

theorem rangeStep_length (n s : ℕ) (hs : 0 < s) :
    (rangeStep n s).length = (n + s - 1) / s := by
  rw [rangeStep_eq_map n s hs]
  simp

theorem ceil_div_eq (n s : ℕ) (hs : 0 < s) :
    (((n + s - 1) / s : ℕ) : ℤ) = Int.ceil ((n : ℚ) / (s : ℚ)) := by
  have hspos : (0 : ℚ) < (s : ℚ) := by exact_mod_cast hs
  set q := (n + s - 1) / s with hqdef
  have ha : q * s ≤ n + s - 1 := Nat.div_mul_le_self _ _
  have hb : n + s - 1 < (q + 1) * s := by
    have h := (Nat.div_lt_iff_lt_mul hs).1 (Nat.lt_succ_self q)
    simpa [hqdef] using h
  have hexp : (q + 1) * s = q * s + s := by
    rw [Nat.add_mul, one_mul]
  have hna : n ≤ q * s := by omega
  symm
  rw [Int.ceil_eq_iff]
  constructor
  · rcases Nat.eq_zero_or_pos q with hq0 | hq1
    · have hn0 : 0 ≤ (n : ℚ) / (s : ℚ) := by positivity
      rw [hq0]
      push_cast
      linarith
    · have hA : s ≤ q * s := Nat.le_mul_of_pos_left s hq1
      have hsub : (q - 1) * s = q * s - s := by
        rw [Nat.sub_mul, one_mul]
      have hlt : (q - 1) * s < n := by omega
      rw [lt_div_iff₀ hspos]
      have hcast : ((q - 1 : ℕ) : ℚ) * (s : ℚ) < (n : ℚ) := by exact_mod_cast hlt
      have hc2 : ((q - 1 : ℕ) : ℚ) = (q : ℚ) - 1 := by
        rw [Nat.cast_sub hq1, Nat.cast_one]
      rw [hc2] at hcast
      push_cast
      linarith
  · rw [div_le_iff₀ hspos]
    exact_mod_cast hna

/-- C6: the placemark loop `for i in range(0, len(coords), N)` emits exactly
⌈numValidPixels / N⌉ placemarks for every positive stride N, the k-th built
from masked-pixel index k·N — every Nth valid pixel in the row-major scan
order of the validity mask. The source instantiates N = 10. -/
theorem placemark_count_spec (cfun : String → ℚ → Rgba) (cmap : String)
    (vmin vmax : ℚ) (dates : List String) (ts : List (List ℚ)) (tsmin tsmax : ℚ)
    (coords : List (ℚ × ℚ)) (vel : List ℚ) (stride : ℕ) (hs : 0 < stride) :
    (buildPlacemarks cfun cmap vmin vmax dates ts tsmin tsmax coords vel stride).length
        = (coords.length + stride - 1) / stride ∧
    (((coords.length + stride - 1) / stride : ℕ) : ℤ)
        = Int.ceil ((coords.length : ℚ) / (stride : ℚ)) ∧
    buildPlacemarks cfun cmap vmin vmax dates ts tsmin tsmax coords vel stride
        = (List.range ((coords.length + stride - 1) / stride)).map
            (fun k => buildPlacemark cfun cmap vmin vmax dates ts tsmin tsmax
              coords vel (k * stride)) := by
  refine ⟨?_, ceil_div_eq _ _ hs, ?_⟩
  · unfold buildPlacemarks
    simp [rangeStep_length _ _ hs]
  · unfold buildPlacemarks
    rw [rangeStep_eq_map _ _ hs, List.map_map]
    rfl

/-- C6 witness: 5 valid pixels at stride 2 yield ⌈5/2⌉ = 3 placemarks. -/
theorem placemark_count_spec_witness :
    (0 < 2) ∧
    (buildPlacemarks cf0 "jet" 0 1 ["d"] [[1, 2, 3, 4, 5]] 0 1
      [(0, 0), (0, 1), (0, 2), (0, 3), (0, 4)] [1, 1, 1, 1, 1] 2).length = 3 :=
  ⟨by norm_num, by
    have h := (placemark_count_spec cf0 "jet" 0 1 ["d"] [[1, 2, 3, 4, 5]] 0 1
      [(0, 0), (0, 1), (0, 2), (0, 3), (0, 4)] [1, 1, 1, 1, 1] 2 (by norm_num)).1
    simpa using h⟩

theorem rangeStep_lt {i n s : ℕ} (hmem : i ∈ rangeStep n s) : i < n := by
  unfold rangeStep at hmem
  exact List.mem_range.1 (List.mem_filter.1 hmem).1

theorem docPlacemarks_runNodes (cfun : String → ℚ → Rgba) (inp : Inputs)
    (vmin vmax tsmin tsmax : ℚ) :
    docPlacemarks (runNodes cfun inp vmin vmax tsmin tsmax) =
      buildPlacemarks cfun (cmapName inp) vmin vmax inp.dates (maskedTs inp)
        tsmin tsmax (coordsOf inp) (maskedVel inp) 10 := by
  unfold runNodes docPlacemarks
  rw [List.filterMap_cons, List.filterMap_map]
  have hcomp : ((fun n =>
      match n with
      | KmlNode.placemarkNode p => some p
      | _ => none) ∘ KmlNode.placemarkNode) = (some : Placemark → Option Placemark) := rfl
  rw [hcomp, List.filterMap_some]

theorem buildPlacemarks_valueRange (cfun : String → ℚ → Rgba) (cmap : String)
    (vmin vmax : ℚ) (dates : List String) (ts : List (List ℚ)) (tsmin tsmax : ℚ)
    (coords : List (ℚ × ℚ)) (vel : List ℚ) (stride : ℕ) :
    ∀ p ∈ buildPlacemarks cfun cmap vmin vmax dates ts tsmin tsmax coords vel stride,
      p.valueRange = (tsmin, tsmax) := by
  intro p hp
  unfold buildPlacemarks at hp
  rcases List.mem_map.1 hp with ⟨i, _, hi⟩
  rw [← hi]
  rfl

theorem runMain_doc_mem (cfun : String → ℚ → Rgba) (inp : Inputs)
    (nodes : List KmlNode)
    (h : Artifact.kmlDocument nodes ∈ (runMain cfun inp).1) :
    ∃ vmin vmax tsmin tsmax,
      tsMinOf inp = some tsmin ∧ tsMaxOf inp = some tsmax ∧
      velBounds inp = some (vmin, vmax) ∧ cmapName inp ∈ knownColormaps ∧
      nodes = runNodes cfun inp vmin vmax tsmin tsmax := by
  rcases h1 : tsMinOf inp with _ | tsmin <;> rcases h2 : tsMaxOf inp with _ | tsmax
  · unfold runMain at h
    rw [h1, h2] at h
    simp at h
  · unfold runMain at h
    rw [h1, h2] at h
    simp at h
  · unfold runMain at h
    rw [h1, h2] at h
    simp at h
  rcases h3 : velBounds inp with _ | ⟨vmin, vmax⟩
  · unfold runMain at h
    rw [h1, h2, h3] at h
    simp at h
  by_cases hc : cmapName inp ∈ knownColormaps
  · unfold runMain at h
    rw [h1, h2, h3] at h
    simp only [hc, if_true] at h
    simp at h
    exact ⟨vmin, vmax, tsmin, tsmax, rfl, rfl, rfl, hc, h⟩
  · unfold runMain at h
    rw [h1, h2, h3] at h
    simp only [hc, if_false] at h
    simp at h

/-- C5: the shared chart value range is the single (min, max) pair over the
entire masked time-series field (all dates, all valid cells), computed once
before any per-pixel encoding; every placemark emitted into the document
embeds this identical pair, so any two placemarks report equal bounds. -/
theorem shared_range_spec (cfun : String → ℚ → Rgba) (inp : Inputs)
    (nodes : List KmlNode)
    (h : Artifact.kmlDocument nodes ∈ (runMain cfun inp).1) :
    ∃ a b, npMin (maskedTs inp).flatten = some a ∧
      npMax (maskedTs inp).flatten = some b ∧
      (∀ p ∈ docPlacemarks nodes, p.valueRange = (a, b)) ∧
      (∀ p ∈ docPlacemarks nodes, ∀ p' ∈ docPlacemarks nodes,
        p.valueRange = p'.valueRange) := by
  obtain ⟨vmin, vmax, tsmin, tsmax, h1, h2, h3, hc, hn⟩ :=
    runMain_doc_mem cfun inp nodes h
  refine ⟨tsmin, tsmax, h1, h2, ?_, ?_⟩
  · intro p hp
    rw [hn, docPlacemarks_runNodes] at hp
    exact buildPlacemarks_valueRange _ _ _ _ _ _ _ _ _ _ _ p hp
  · intro p hp p' hp'
    rw [hn, docPlacemarks_runNodes] at hp hp'
    rw [buildPlacemarks_valueRange _ _ _ _ _ _ _ _ _ _ _ p hp,
      buildPlacemarks_valueRange _ _ _ _ _ _ _ _ _ _ _ p' hp']

/-- C7: every emitted placemark's coordinate string puts longitude first,
then latitude — the reverse of the internal (lat, lon) pair. -/
theorem coord_order_spec (cfun : String → ℚ → Rgba) (inp : Inputs)
    (nodes : List KmlNode)
    (h : Artifact.kmlDocument nodes ∈ (runMain cfun inp).1) :
    ∀ p ∈ docPlacemarks nodes, ∃ i, i < (coordsOf inp).length ∧
      p.coordStr =
        pyStr ((coordsOf inp).getD i (0, 0)).2 ++ "," ++
          pyStr ((coordsOf inp).getD i (0, 0)).1 := by
  obtain ⟨vmin, vmax, tsmin, tsmax, h1, h2, h3, hc, hn⟩ :=
    runMain_doc_mem cfun inp nodes h
  intro p hp
  rw [hn, docPlacemarks_runNodes] at hp
  unfold buildPlacemarks at hp
  rcases List.mem_map.1 hp with ⟨i, hmem, hi⟩
  exact ⟨i, rangeStep_lt hmem, by rw [← hi]; rfl⟩

theorem inp0_tsmin : tsMinOf inp0 = some 200 := by
  norm_num [tsMinOf, maskedTs, rawMaskedTs, flatMask, applyMask, npMin, inp0]

theorem inp0_tsmax : tsMaxOf inp0 = some 200 := by
  norm_num [tsMaxOf, maskedTs, rawMaskedTs, flatMask, applyMask, npMax, inp0]

theorem inp0_bounds : velBounds inp0 = some (100, 100) := by
  norm_num [velBounds, maskedVel, rawMaskedVel, flatMask, applyMask, npMin, npMax, inp0]

theorem inp0_doc_mem :
    Artifact.kmlDocument (runNodes cf0 inp0 100 100 200 200) ∈ (runMain cf0 inp0).1 := by
  unfold runMain
  rw [inp0_tsmin, inp0_tsmax, inp0_bounds]
  have hc : cmapName inp0 ∈ knownColormaps := by
    simp [cmapName, inp0, knownColormaps]
  simp only [hc, if_true]
  simp

/-- C5 witness: the theorem applied to the concrete 1×1 run. -/
theorem shared_range_spec_witness :
    (Artifact.kmlDocument (runNodes cf0 inp0 100 100 200 200) ∈ (runMain cf0 inp0).1) ∧
    ∃ a b, npMin (maskedTs inp0).flatten = some a ∧
      npMax (maskedTs inp0).flatten = some b ∧
      (∀ p ∈ docPlacemarks (runNodes cf0 inp0 100 100 200 200), p.valueRange = (a, b)) ∧
      (∀ p ∈ docPlacemarks (runNodes cf0 inp0 100 100 200 200),
        ∀ p' ∈ docPlacemarks (runNodes cf0 inp0 100 100 200 200),
          p.valueRange = p'.valueRange) :=
  ⟨inp0_doc_mem, shared_range_spec cf0 inp0 _ inp0_doc_mem⟩

/-- C7 witness: the theorem applied to the concrete 1×1 run. -/
theorem coord_order_spec_witness :
    (Artifact.kmlDocument (runNodes cf0 inp0 100 100 200 200) ∈ (runMain cf0 inp0).1) ∧
    ∀ p ∈ docPlacemarks (runNodes cf0 inp0 100 100 200 200),
      ∃ i, i < (coordsOf inp0).length ∧
        p.coordStr =
          pyStr ((coordsOf inp0).getD i (0, 0)).2 ++ "," ++
            pyStr ((coordsOf inp0).getD i (0, 0)).1 :=
  ⟨inp0_doc_mem, coord_order_spec cf0 inp0 _ inp0_doc_mem⟩

/-- C8: a configured colormap name outside the supported registry makes the
run fail with `invalidConfiguration` before any artifact is produced; the
resolution never silently replaces a given name, and when no name is given
the default scale "jet" (a registry member) is used. -/
theorem invalid_colormap_spec (cfun : String → ℚ → Rgba) (inp : Inputs)
    (name : String) (h1 : inp.colormap = some name) (h2 : name ∉ knownColormaps)
    (h3 : tsMinOf inp ≠ none) (h4 : tsMaxOf inp ≠ none)
    (h5 : velBounds inp ≠ none) :
    runMain cfun inp = ([], some KmzError.invalidConfiguration) ∧
    cmapName inp = name ∧
    (∀ other : Inputs, other.colormap = none → cmapName other = "jet") ∧
    "jet" ∈ knownColormaps := by
  have hcm : cmapName inp = name := by simp [cmapName, h1]
  have hnotin : cmapName inp ∉ knownColormaps := by
    rw [hcm]
    exact h2
  obtain ⟨tsmin, h3'⟩ := Option.ne_none_iff_exists'.1 h3
  obtain ⟨tsmax, h4'⟩ := Option.ne_none_iff_exists'.1 h4
  obtain ⟨⟨vmin, vmax⟩, h5'⟩ := Option.ne_none_iff_exists'.1 h5
  refine ⟨?_, hcm, ?_, ?_⟩
  · unfold runMain
    rw [h3', h4', h5']
    simp [hnotin]
  · intro other hother
    simp [cmapName, hother]
  · simp [knownColormaps]

/-- The 1×1 run reconfigured with an unknown colormap name. -/
def inpBad : Inputs := { inp0 with colormap := some "nope" }

theorem inpBad_tsmin : tsMinOf inpBad = some 200 := by
  norm_num [tsMinOf, maskedTs, rawMaskedTs, flatMask, applyMask, npMin, inpBad, inp0]

theorem inpBad_tsmax : tsMaxOf inpBad = some 200 := by
  norm_num [tsMaxOf, maskedTs, rawMaskedTs, flatMask, applyMask, npMax, inpBad, inp0]

theorem inpBad_bounds : velBounds inpBad = some (100, 100) := by
  norm_num [velBounds, maskedVel, rawMaskedVel, flatMask, applyMask, npMin, npMax,
    inpBad, inp0]

/-- C8 witness: the theorem applied to the run configured with "nope". -/
theorem invalid_colormap_spec_witness :
    (inpBad.colormap = some "nope") ∧ ("nope" ∉ knownColormaps) ∧
    (runMain cf0 inpBad = ([], some KmzError.invalidConfiguration) ∧
      cmapName inpBad = "nope" ∧
      (∀ other : Inputs, other.colormap = none → cmapName other = "jet") ∧
      "jet" ∈ knownColormaps) :=
  ⟨rfl, by simp [knownColormaps],
    invalid_colormap_spec cf0 inpBad "nope" rfl (by simp [knownColormaps])
      (by simp [inpBad_tsmin]) (by simp [inpBad_tsmax]) (by simp [inpBad_bounds])⟩

theorem applyMask_nil_of_false {α : Type} (m : List Bool)
    (h : ∀ b ∈ m, b = false) : ∀ xs : List α, applyMask m xs = [] := by
  induction m with
  | nil =>
    intro xs
    cases xs <;> simp [applyMask]
  | cons b bs ih =>
    intro xs
    cases xs with
    | nil => simp [applyMask]
    | cons x xs =>
      have hb : b = false := h b (by simp)
      have hrest := ih (fun c hc => h c (by simp [hc])) xs
      unfold applyMask at hrest ⊢
      simp [hb, hrest]

/-- C10: when every velocity cell is missing, the run fails with an empty
reduction at the shared-range computation (`np.min` of an empty masked
array), producing no artifact at all — no legend image, no document, no
archive, and in particular no legend-only document with zero placemarks. -/
theorem empty_mask_spec (cfun : String → ℚ → Rgba) (inp : Inputs)
    (h : ∀ row ∈ inp.velRaw, ∀ x ∈ row, x = none) :
    runMain cfun inp = ([], some KmzError.emptyData) ∧ tsMinOf inp = none := by
  have hmask : ∀ b ∈ flatMask inp, b = false := by
    intro b hb
    unfold flatMask at hb
    rcases List.mem_map.1 hb with ⟨o, ho, rfl⟩
    rcases List.mem_flatten.1 ho with ⟨row, hrow, hoo⟩
    rw [h row hrow o hoo]
    rfl
  have hts : (maskedTs inp).flatten = [] := by
    rw [List.flatten_eq_nil_iff]
    intro l hl
    unfold maskedTs rawMaskedTs at hl
    rw [List.map_map] at hl
    rcases List.mem_map.1 hl with ⟨sl, _, rfl⟩
    simp [Function.comp, applyMask_nil_of_false _ hmask]
  have htsmin : tsMinOf inp = none := by
    unfold tsMinOf
    rw [hts]
    rfl
  have htsmax : tsMaxOf inp = none := by
    unfold tsMaxOf
    rw [hts]
    rfl
  refine ⟨?_, htsmin⟩
  unfold runMain
  rw [htsmin, htsmax]

/-- An all-NaN 1×2 velocity raster. -/
def inpEmpty : Inputs :=
  { dates := ["2020-01-01"]
    velRaw := [[none, none]]
    tsRaw := [[[1, 2]]]
    meta := { y_first := 0, x_first := 0, y_step := 1, x_step := 1, length := 1, width := 2 }
    vlim := none
    colormap := none
    outBase := "t" }

/-- C10 witness: the theorem applied to the all-NaN run. -/
theorem empty_mask_spec_witness :
    (∀ row ∈ inpEmpty.velRaw, ∀ x ∈ row, x = none) ∧
    (runMain cf0 inpEmpty = ([], some KmzError.emptyData) ∧
      tsMinOf inpEmpty = none) :=
  ⟨by simp [inpEmpty], empty_mask_spec cf0 inpEmpty (by simp [inpEmpty])⟩

theorem foldl_min_map100 (xs : List ℚ) (x : ℚ) :
    (xs.map (fun y => y * 100)).foldl min (x * 100) = (xs.foldl min x) * 100 := by
  induction xs generalizing x with
  | nil => rfl
  | cons y ys ih =>
    simp only [List.map_cons, List.foldl_cons]
    rw [← min_mul_of_nonneg x y (by norm_num : (0 : ℚ) ≤ 100)]
    exact ih (min x y)

theorem foldl_max_map100 (xs : List ℚ) (x : ℚ) :
    (xs.map (fun y => y * 100)).foldl max (x * 100) = (xs.foldl max x) * 100 := by
  induction xs generalizing x with
  | nil => rfl
  | cons y ys ih =>
    simp only [List.map_cons, List.foldl_cons]
    rw [← max_mul_of_nonneg x y (by norm_num : (0 : ℚ) ≤ 100)]
    exact ih (max x y)

theorem npMin_map100 (l : List ℚ) :
    npMin (l.map (fun y => y * 100)) = (npMin l).map (fun y => y * 100) := by
  cases l with
  | nil => rfl
  | cons x xs => simp [npMin, foldl_min_map100]

theorem npMax_map100 (l : List ℚ) :
    npMax (l.map (fun y => y * 100)) = (npMax l).map (fun y => y * 100) := by
  cases l with
  | nil => rfl
  | cons x xs => simp [npMax, foldl_max_map100]

theorem getD_map100 (l : List ℚ) (i : ℕ) :
    (l.map (fun y => y * 100)).getD i 0 = l.getD i 0 * 100 := by
  simp only [List.getD_eq_getElem?_getD, List.getElem?_map]
  cases h : l[i]? <;> simp

theorem getD_mapmap100 (L : List (List ℚ)) (j : ℕ) :
    (L.map (fun sl => sl.map (fun y => y * 100))).getD j [] =
      (L.getD j []).map (fun y => y * 100) := by
  simp only [List.getD_eq_getElem?_getD, List.getElem?_map]
  cases h : L[j]? <;> simp

theorem flatten_map_map100 (L : List (List ℚ)) :
    (L.map (fun sl => sl.map (fun y => y * 100))).flatten =
      L.flatten.map (fun y => y * 100) :=
  (List.map_flatten _ _).symm

theorem buildPlacemark_colorHex (cfun : String → ℚ → Rgba) (cmap : String)
    (vmin vmax : ℚ) (dates : List String) (ts : List (List ℚ)) (tsmin tsmax : ℚ)
    (coords : List (ℚ × ℚ)) (vel : List ℚ) (i : ℕ) :
    (buildPlacemark cfun cmap vmin vmax dates ts tsmin tsmax coords vel i).colorHex =
      kmlHex (cfun cmap (normalize vmin vmax (vel.getD i 0))) := rfl

theorem buildPlacemark_rows (cfun : String → ℚ → Rgba) (cmap : String)
    (vmin vmax : ℚ) (dates : List String) (ts : List (List ℚ)) (tsmin tsmax : ℚ)
    (coords : List (ℚ × ℚ)) (vel : List ℚ) (i : ℕ) :
    (buildPlacemark cfun cmap vmin vmax dates ts tsmin tsmax coords vel i).rows =
      (List.range dates.length).map
        (fun j => (dates.getD j "", (ts.getD j []).getD i 0)) := rfl

/-- C9: velocity and displacement values are scaled by 100 (meters to
centimeters) immediately after masking and before every use: the shared
chart range is the min/max of the 100×-scaled masked time-series, the
data-derived color bounds (when no explicit vlim is given) are the min/max
of the 100×-scaled masked velocities, every placemark's color is computed
from the 100×-scaled velocity of its pixel, and every chart row embeds the
100×-scaled displacement. -/
theorem scale_to_cm_spec (cfun : String → ℚ → Rgba) (inp : Inputs)
    (nodes : List KmlNode) (vmin vmax : ℚ)
    (hdoc : Artifact.kmlDocument nodes ∈ (runMain cfun inp).1)
    (hvb : velBounds inp = some (vmin, vmax)) :
    (tsMinOf inp = (npMin (rawMaskedTs inp).flatten).map (fun y => y * 100)) ∧
    (tsMaxOf inp = (npMax (rawMaskedTs inp).flatten).map (fun y => y * 100)) ∧
    (inp.vlim = none →
      velBounds inp =
        match npMin (rawMaskedVel inp), npMax (rawMaskedVel inp) with
        | some a, some b => some (a * 100, b * 100)
        | _, _ => none) ∧
    (∀ p ∈ docPlacemarks nodes, ∃ i,
      p.colorHex = kmlHex (cfun (cmapName inp)
        (normalize vmin vmax ((rawMaskedVel inp).getD i 0 * 100))) ∧
      p.rows = (List.range inp.dates.length).map (fun j =>
        (inp.dates.getD j "", ((rawMaskedTs inp).getD j []).getD i 0 * 100))) := by
  have hmts : maskedTs inp = (rawMaskedTs inp).map (fun sl => sl.map (fun y => y * 100)) := rfl
  have hmv : maskedVel inp = (rawMaskedVel inp).map (fun y => y * 100) := rfl
  refine ⟨?_, ?_, ?_, ?_⟩
  · unfold tsMinOf
    rw [hmts, flatten_map_map100, npMin_map100]
  · unfold tsMaxOf
    rw [hmts, flatten_map_map100, npMax_map100]
  · intro hvlim
    unfold velBounds
    rw [hvlim, hmv, npMin_map100, npMax_map100]
    cases npMin (rawMaskedVel inp) <;> cases npMax (rawMaskedVel inp) <;> rfl
  · obtain ⟨vmin', vmax', tsmin, tsmax, h1, h2, h3, hc, hn⟩ :=
      runMain_doc_mem cfun inp nodes hdoc
    rw [h3] at hvb
    have hvv : vmin' = vmin ∧ vmax' = vmax := by
      have hin := Option.some.inj hvb
      exact ⟨congrArg Prod.fst hin, congrArg Prod.snd hin⟩
    obtain ⟨rfl, rfl⟩ := hvv
    intro p hp
    rw [hn, docPlacemarks_runNodes] at hp
    unfold buildPlacemarks at hp
    rcases List.mem_map.1 hp with ⟨i, hmem, hi⟩
    refine ⟨i, ?_, ?_⟩
    · rw [← hi, buildPlacemark_colorHex, hmv, getD_map100]
    · rw [← hi, buildPlacemark_rows]
      apply List.map_congr_left
      intro j hj
      rw [hmts, getD_mapmap100, getD_map100]

/-- C9 witness: the theorem applied to the concrete 1×1 run. -/
theorem scale_to_cm_spec_witness :
    (Artifact.kmlDocument (runNodes cf0 inp0 100 100 200 200) ∈ (runMain cf0 inp0).1) ∧
    (velBounds inp0 = some (100, 100)) ∧
    (tsMinOf inp0 = (npMin (rawMaskedTs inp0).flatten).map (fun y => y * 100)) :=
  ⟨inp0_doc_mem, inp0_bounds,
    (scale_to_cm_spec cf0 inp0 (runNodes cf0 inp0 100 100 200 200) 100 100
      inp0_doc_mem inp0_bounds).1⟩

end KmzTs
